import Mathlib

/-!
Verification development for the txbt datapack compiler.

The definitions below are shallow embeddings of the Python sources:
  * `datapack.py` — the `Function` call graph (`_FuncState`, `_isempty`,
    `define_state`, `recursivecheck`, `export_commands`), the execute-prefix
    algebra (`SubCommand.__add__`), condition segments
    (`SubCommandSegment.Condition.*`), `ConditionSubCommand.invert` and
    `FunctionTag.export`;
  * `txbt.py` — `Wait.__init__`, `IComposit`,
    `ParallelTraverse.main_server_with_state` and
    `ParallelTraverse.main_entity_with_state`.

Python recursion that may diverge is embedded with an explicit fuel
parameter: a `none` / `.error fuelOut` result at every fuel models
non-termination (Python `RecursionError`).
-/

namespace Txbt

/-! ## Function call-graph model (datapack.py)

A `Function` is identified by its index in an environment list.  A command
is either a call to another registered `Function` (class
`Command.Function.Function`) carrying its execute-prefix segment list, or
any other command (its prefix list plus payload text). -/

/-- datapack.py `_FuncState`. -/
inductive FuncState where
  | NEEDLESS
  | FLATTEN
  | SINGLE
  | EXPORT
deriving DecidableEq, Repr

/-- A command held by a `Function`: either a call to registered function
`g` (class `Command.Function.Function`) with prefix segments `pfx`, or any
other command with prefix segments `pfx` and payload text `text`. -/
inductive Cmd where
  | callF (g : Nat) (pfx : List String)
  | plain (pfx : List String) (text : String)
deriving DecidableEq, Repr

/-- One `Function` object after the construction/append phase:
`hasname` is `_hasname` (an explicit path was given), `scheduled` is
`_scheduled`, `tagged` is set by `FunctionTag.append`/`check_call_relation`,
`pathStr` is `expression` (the function's path string). -/
structure FuncData where
  hasname : Bool
  scheduled : Bool
  tagged : Bool
  pathStr : String
  commands : List Cmd
deriving DecidableEq, Repr

/-- The registry `Function.functions`; function ids are list indices. -/
def commandsOf (env : List FuncData) (f : Nat) : List Cmd :=
  ((env[f]?).map (·.commands)).getD []

/-- `Function.subcommanded` as established by the `check_call_relation`
pass: some call site targeting `f` carries a non-empty prefix. -/
def subcommanded (env : List FuncData) (f : Nat) : Bool :=
  env.any fun d =>
    d.commands.any fun c =>
      match c with
      | .callF g p => g == f && !p.isEmpty
      | .plain _ _ => false

/-- Inner loop of `Function._isempty`: every command must be a call to a
function the recursive check (`rec_`) accepts as empty; any other command
makes the function non-empty.  `rec_ g = none` models a diverging
recursive call. -/
def isemptyList (rec_ : Nat → Option Bool) : List Cmd → Option Bool
  | [] => some true
  | .plain _ _ :: _ => some false
  | .callF g _ :: rest =>
    match rec_ g with
    | none => none
    | some false => some false
    | some true => isemptyList rec_ rest

/-- `Function._isempty` with fuel bounding the call-recursion depth;
`none` models Python's unbounded recursion (`RecursionError`). -/
def isemptyFuel (env : List FuncData) : Nat → Nat → Option Bool
  | 0, _ => none
  | n + 1, f => isemptyList (isemptyFuel env n) (commandsOf env f)

/-- The callee of a command, when the command is a function call. -/
def cmdCallee : Cmd → Option Nat
  | .callF g _ => some g
  | .plain _ _ => none

/-- The spec's notion of a transitively empty function: every command is a
call to a transitively empty function (so a function with zero commands is
empty). -/
inductive TransEmpty (env : List FuncData) : Nat → Prop where
  | intro (f : Nat)
      (h1 : ∀ c ∈ commandsOf env f, (cmdCallee c).isSome)
      (h2 : ∀ c ∈ commandsOf env f, ∀ g, cmdCallee c = some g → TransEmpty env g) :
      TransEmpty env f

/-- `Function.define_state`, literally: explicit path ⇒ EXPORT; else empty ⇒
NEEDLESS; else scheduled/tagged ⇒ EXPORT; else not subcommanded ⇒ FLATTEN;
else single command ⇒ SINGLE; else EXPORT.  `none` when `_isempty`
diverges at this fuel. -/
def defineState (env : List FuncData) (fuel : Nat) (f : Nat) : Option FuncState :=
  match env[f]? with
  | none => none
  | some d =>
    if d.hasname then some .EXPORT
    else
      match isemptyFuel env fuel f with
      | none => none
      | some true => some .NEEDLESS
      | some false =>
        if d.scheduled || d.tagged then some .EXPORT
        else if !subcommanded env f then some .FLATTEN
        else if d.commands.length = 1 then some .SINGLE
        else some .EXPORT

/-! ### Supporting lemmas about `_isempty` -/

theorem isemptyList_mono {r1 r2 : Nat → Option Bool}
    (hr : ∀ g b, r1 g = some b → r2 g = some b) :
    ∀ l b, isemptyList r1 l = some b → isemptyList r2 l = some b := by
  intro l
  induction l with
  | nil => intro b h; exact h
  | cons c rest ih =>
    intro b h
    cases c with
    | plain p t => exact h
    | callF g p =>
      simp only [isemptyList] at h ⊢
      cases hg : r1 g with
      | none => rw [hg] at h; exact absurd h (by simp)
      | some bg =>
        rw [hr g bg hg]
        rw [hg] at h
        cases bg with
        | false => exact h
        | true => exact ih b h

theorem isemptyFuel_mono (env : List FuncData) :
    ∀ n m f b, n ≤ m → isemptyFuel env n f = some b → isemptyFuel env m f = some b := by
  intro n
  induction n with
  | zero => intro m f b _ h; simp [isemptyFuel] at h
  | succ n ih =>
    intro m f b hnm h
    cases m with
    | zero => omega
    | succ m =>
      simp only [isemptyFuel] at h ⊢
      exact isemptyList_mono (fun g bg hg => ih m g bg (by omega) hg) _ b h

theorem isemptyList_true_elim {r : Nat → Option Bool} :
    ∀ l, isemptyList r l = some true →
      ∀ c ∈ l, ∃ g p, c = Cmd.callF g p ∧ r g = some true := by
  intro l
  induction l with
  | nil => intro _ c hc; exact absurd hc (List.not_mem_nil c)
  | cons c rest ih =>
    intro h c' hc'
    cases c with
    | plain p t => simp [isemptyList] at h
    | callF g p =>
      simp only [isemptyList] at h
      cases hg : r g with
      | none => rw [hg] at h; exact absurd h (by simp)
      | some bg =>
        rw [hg] at h
        cases bg with
        | false => exact absurd h (by simp)
        | true =>
          rcases List.mem_cons.mp hc' with h1 | h2
          · exact ⟨g, p, h1, hg⟩
          · exact ih h c' h2

theorem isemptyList_true_intro {r : Nat → Option Bool} :
    ∀ l, (∀ c ∈ l, ∃ g p, c = Cmd.callF g p ∧ r g = some true) →
      isemptyList r l = some true := by
  intro l
  induction l with
  | nil => intro _; rfl
  | cons c rest ih =>
    intro h
    rcases h c (List.mem_cons_self c rest) with ⟨g, p, hc, hg⟩
    subst hc
    simp only [isemptyList, hg]
    exact ih fun c' hc' => h c' (List.mem_cons_of_mem _ hc')

theorem cmdCallee_some {c : Cmd} {g : Nat} (h : cmdCallee c = some g) :
    ∃ p, c = Cmd.callF g p := by
  cases c with
  | callF g' p =>
    simp only [cmdCallee, Option.some.injEq] at h
    exact ⟨p, by rw [h]⟩
  | plain p t => simp [cmdCallee] at h

theorem transEmpty_of_isempty_true (env : List FuncData) :
    ∀ n f, isemptyFuel env n f = some true → TransEmpty env f := by
  intro n
  induction n with
  | zero => intro f h; simp [isemptyFuel] at h
  | succ n ih =>
    intro f h
    simp only [isemptyFuel] at h
    refine TransEmpty.intro f ?_ ?_
    · intro c hc
      rcases isemptyList_true_elim _ h c hc with ⟨g, p, hcall, _⟩
      rw [hcall]; rfl
    · intro c hc g hg
      rcases isemptyList_true_elim _ h c hc with ⟨g', p, hcall, hg'⟩
      have : g' = g := by rw [hcall] at hg; simpa [cmdCallee] using hg
      exact ih g (this ▸ hg')

theorem isempty_true_of_transEmpty (env : List FuncData) :
    ∀ f, TransEmpty env f → ∃ n, isemptyFuel env n f = some true := by
  intro f h
  induction h with
  | intro f hc1 hc2 ihc =>
    have hlist : ∀ l : List Cmd, (∀ c ∈ l, ∃ g p, c = Cmd.callF g p ∧
        ∃ n, isemptyFuel env n g = some true) →
        ∃ N, ∀ c ∈ l, ∃ g p, c = Cmd.callF g p ∧ isemptyFuel env N g = some true := by
      intro l
      induction l with
      | nil => intro _; exact ⟨0, by intro c hc0; exact absurd hc0 (List.not_mem_nil c)⟩
      | cons c rest ihl =>
        intro hall
        rcases hall c (List.mem_cons_self c rest) with ⟨g, p, hcall, n1, hn1⟩
        rcases ihl (fun c' hc' => hall c' (List.mem_cons_of_mem _ hc')) with ⟨N2, hN2⟩
        refine ⟨max n1 N2, ?_⟩
        intro c' hc'
        rcases List.mem_cons.mp hc' with h1 | h2
        · exact ⟨g, p, h1 ▸ hcall,
            isemptyFuel_mono env n1 (max n1 N2) g true (Nat.le_max_left _ _) hn1⟩
        · rcases hN2 c' h2 with ⟨g', p', hcall', hg'⟩
          exact ⟨g', p', hcall',
            isemptyFuel_mono env N2 (max n1 N2) g' true (Nat.le_max_right _ _) hg'⟩
    rcases hlist (commandsOf env f) (fun c hc0 => by
      have hs := hc1 c hc0
      rcases Option.isSome_iff_exists.mp hs with ⟨g, hg⟩
      rcases cmdCallee_some hg with ⟨p, hcall⟩
      exact ⟨g, p, hcall, ihc c hc0 g hg⟩) with ⟨N, hN⟩
    exact ⟨N + 1, isemptyList_true_intro _ hN⟩

theorem not_transEmpty_of_isempty_false (env : List FuncData) (n f : Nat)
    (h : isemptyFuel env n f = some false) : ¬ TransEmpty env f := by
  intro hte
  rcases isempty_true_of_transEmpty env f hte with ⟨m, hm⟩
  have h1 := isemptyFuel_mono env n (max n m) f false (Nat.le_max_left _ _) h
  have h2 := isemptyFuel_mono env m (max n m) f true (Nat.le_max_right _ _) hm
  rw [h1] at h2
  exact absurd h2 (by simp)

/-- C1: for every registered function whose `_isempty` check terminates,
`define_state` assigns the callstate by the first matching rule, in order:
EXPORT on explicit path; NEEDLESS on transitive emptiness; EXPORT when
scheduled or tagged; FLATTEN when not subcommanded; SINGLE on exactly one
command; otherwise EXPORT. -/
theorem claim_C1 (env : List FuncData) (f : Nat) (d : FuncData)
    (hd : env[f]? = some d) (n : Nat) (b : Bool)
    (he : isemptyFuel env n f = some b) :
    (b = true ↔ TransEmpty env f)
    ∧ (d.hasname = true → defineState env n f = some .EXPORT)
    ∧ (d.hasname = false → TransEmpty env f →
        defineState env n f = some .NEEDLESS)
    ∧ (d.hasname = false → ¬ TransEmpty env f →
        (d.scheduled = true ∨ d.tagged = true) →
        defineState env n f = some .EXPORT)
    ∧ (d.hasname = false → ¬ TransEmpty env f →
        d.scheduled = false → d.tagged = false → subcommanded env f = false →
        defineState env n f = some .FLATTEN)
    ∧ (d.hasname = false → ¬ TransEmpty env f →
        d.scheduled = false → d.tagged = false → subcommanded env f = true →
        d.commands.length = 1 → defineState env n f = some .SINGLE)
    ∧ (d.hasname = false → ¬ TransEmpty env f →
        d.scheduled = false → d.tagged = false → subcommanded env f = true →
        d.commands.length ≠ 1 → defineState env n f = some .EXPORT) := by
  have hiff : b = true ↔ TransEmpty env f := by
    constructor
    · intro hb; exact transEmpty_of_isempty_true env n f (hb ▸ he)
    · intro hte
      by_contra hb
      have hbf : b = false := by cases b with
        | false => rfl
        | true => exact absurd rfl hb
      exact not_transEmpty_of_isempty_false env n f (hbf ▸ he) hte
  refine ⟨hiff, ?_, ?_, ?_, ?_, ?_, ?_⟩
  · intro hn; simp [defineState, hd, hn]
  · intro hn hte
    have hb : b = true := hiff.mpr hte
    subst hb
    simp [defineState, hd, hn, he]
  · intro hn hte hst
    have hb : b = false := by
      cases b with
      | false => rfl
      | true => exact absurd (hiff.mp rfl) hte
    subst hb
    rcases hst with h1 | h1 <;> simp [defineState, hd, hn, he, h1]
  · intro hn hte hs ht hsub
    have hb : b = false := by
      cases b with
      | false => rfl
      | true => exact absurd (hiff.mp rfl) hte
    subst hb
    simp [defineState, hd, hn, he, hs, ht, hsub]
  · intro hn hte hs ht hsub hlen
    have hb : b = false := by
      cases b with
      | false => rfl
      | true => exact absurd (hiff.mp rfl) hte
    subst hb
    simp [defineState, hd, hn, he, hs, ht, hsub, hlen]
  · intro hn hte hs ht hsub hlen
    have hb : b = false := by
      cases b with
      | false => rfl
      | true => exact absurd (hiff.mp rfl) hte
    subst hb
    simp [defineState, hd, hn, he, hs, ht, hsub, hlen]

/-- A one-function environment: anonymous, unscheduled, untagged, holding a
single non-call command. -/
def envW : List FuncData :=
  [⟨false, false, false, "minecraft:txbt/w", [Cmd.plain [] "say hi"]⟩]

theorem claim_C1_witness :
    envW[0]? = some ⟨false, false, false, "minecraft:txbt/w", [Cmd.plain [] "say hi"]⟩
    ∧ isemptyFuel envW 1 0 = some false
    ∧ ((false = true ↔ TransEmpty envW 0)
       ∧ ((false : Bool) = true → defineState envW 1 0 = some .EXPORT)
       ∧ ((false : Bool) = false → TransEmpty envW 0 →
           defineState envW 1 0 = some .NEEDLESS)
       ∧ ((false : Bool) = false → ¬ TransEmpty envW 0 →
           ((false : Bool) = true ∨ (false : Bool) = true) →
           defineState envW 1 0 = some .EXPORT)
       ∧ ((false : Bool) = false → ¬ TransEmpty envW 0 →
           (false : Bool) = false → (false : Bool) = false → subcommanded envW 0 = false →
           defineState envW 1 0 = some .FLATTEN)
       ∧ ((false : Bool) = false → ¬ TransEmpty envW 0 →
           (false : Bool) = false → (false : Bool) = false → subcommanded envW 0 = true →
           ([Cmd.plain [] "say hi"] : List Cmd).length = 1 →
           defineState envW 1 0 = some .SINGLE)
       ∧ ((false : Bool) = false → ¬ TransEmpty envW 0 →
           (false : Bool) = false → (false : Bool) = false → subcommanded envW 0 = true →
           ([Cmd.plain [] "say hi"] : List Cmd).length ≠ 1 →
           defineState envW 1 0 = some .EXPORT)) :=
  ⟨rfl, rfl, claim_C1 envW 0 _ rfl 1 false rfl⟩

end Txbt

namespace Txbt

/-! ## `Function.recursivecheck` (datapack.py lines 1907-1920)

The pass walks the call graph depth-first carrying the set of ancestors
currently being inlined; a call target that is an ancestor is forced to
EXPORT; the walk recurses only into targets still classified FLATTEN or
SINGLE; a `visited` flag makes each function's body run at most once.
States and visited flags are lists indexed by function id.  The fuel only
bounds the recursion depth of the embedding; every `some` result is the
exact result of the Python pass. -/

/-- A pending piece of the recursive walk: a whole function body, or the
remaining commands of a body being scanned. -/
inductive RCTask where
  | fn (f : Nat) (parents : List Nat)
  | cmds (l : List Cmd) (parents : List Nat)

/-- One `recursivecheck` walk.  `RCTask.fn f parents` is
`f.recursivecheck(parents)`; `RCTask.cmds l parents` is the loop over the
remaining commands `l` with `parents` already containing the current
function. -/
def rcRun (env : List FuncData) : Nat → List FuncState → List Bool → RCTask →
    Option (List FuncState × List Bool)
  | 0, _, _, _ => none
  | n + 1, sts, vis, .fn f parents =>
    if vis.getD f false then some (sts, vis)
    else
      match rcRun env n sts vis (.cmds (commandsOf env f) (f :: parents)) with
      | none => none
      | some (s2, v2) => some (s2, v2.set f true)
  | _ + 1, sts, vis, .cmds [] _ => some (sts, vis)
  | n + 1, sts, vis, .cmds (c :: rest) parents =>
    match c with
    | .plain _ _ => rcRun env n sts vis (.cmds rest parents)
    | .callF g _ =>
      let s1 := if parents.contains g then sts.set g .EXPORT else sts
      if s1.getD g .EXPORT = .FLATTEN ∨ s1.getD g .EXPORT = .SINGLE then
        match rcRun env n s1 vis (.fn g parents) with
        | none => none
        | some (s2, v2) => rcRun env n s2 v2 (.cmds rest parents)
      else rcRun env n s1 vis (.cmds rest parents)

/-- The driver loop `for f in Function.functions: f.recursivecheck()`,
run over the listed ids in order. -/
def rcDriver (env : List FuncData) (fuel : Nat) :
    List FuncState → List Bool → List Nat → Option (List FuncState × List Bool)
  | sts, vis, [] => some (sts, vis)
  | sts, vis, i :: rest =>
    match rcRun env fuel sts vis (.fn i []) with
    | none => none
    | some (s2, v2) => rcDriver env fuel s2 v2 rest

/-- `recursivecheck` run from every registered function in order, starting
from the classification `sts` produced by `define_state`. -/
def rcAll (env : List FuncData) (fuel : Nat) (sts : List FuncState) :
    Option (List FuncState × List Bool) :=
  rcDriver env fuel sts (List.replicate env.length false) (List.range env.length)

/-- The two anonymous mutually recursive functions of the claim: function 0
holds only a plain (prefix-free) call to function 1 and vice versa;
neither is named, scheduled, or tagged. -/
def envFG : List FuncData :=
  [⟨false, false, false, "minecraft:txbt/f", [Cmd.callF 1 []]⟩,
   ⟨false, false, false, "minecraft:txbt/g", [Cmd.callF 0 []]⟩]

theorem isemptyFuel_envFG_none : ∀ n, isemptyFuel envFG n 0 = none ∧ isemptyFuel envFG n 1 = none := by
  intro n
  induction n with
  | zero => exact ⟨rfl, rfl⟩
  | succ n ih =>
    refine ⟨?_, ?_⟩
    · show isemptyList (isemptyFuel envFG n) (commandsOf envFG 0) = none
      have : commandsOf envFG 0 = [Cmd.callF 1 []] := rfl
      rw [this]
      simp only [isemptyList, ih.2]
    · show isemptyList (isemptyFuel envFG n) (commandsOf envFG 1) = none
      have : commandsOf envFG 1 = [Cmd.callF 0 []] := rfl
      rw [this]
      simp only [isemptyList, ih.1]

/-- C3 counterexample: on the two-function cycle, granting both functions
the classification FLATTEN (the claim's premise that `define_state`
classified them), running `recursivecheck` over all functions promotes
only function 0 to EXPORT; function 1 is left FLATTEN, so the two
callstates do not both equal EXPORT.  (`define_state` itself never even
terminates here: see the amended theorem.) -/
theorem claim_C3_cex :
    rcAll envFG 9 [FuncState.FLATTEN, FuncState.FLATTEN]
      = some ([FuncState.EXPORT, FuncState.FLATTEN], [true, true])
    ∧ FuncState.FLATTEN ≠ FuncState.EXPORT := by
  exact ⟨by decide, by decide⟩

/-- C3 amended: for the anonymous two-function call cycle, `define_state`
does not terminate at any recursion depth (`_isempty` recurses between the
two functions for ever), and, taking the classification FLATTEN for both
as given, `recursivecheck` promotes exactly the first function of the
cycle it meets as an ancestor (function 0) to EXPORT while the other
remains FLATTEN. -/
theorem claim_C3_amended :
    (∀ n, defineState envFG n 0 = none)
    ∧ (∀ n, defineState envFG n 1 = none)
    ∧ rcAll envFG 9 [FuncState.FLATTEN, FuncState.FLATTEN]
        = some ([FuncState.EXPORT, FuncState.FLATTEN], [true, true]) := by
  refine ⟨?_, ?_, by decide⟩
  · intro n
    have h := (isemptyFuel_envFG_none n).1
    simp [defineState, h]
    rfl
  · intro n
    have h := (isemptyFuel_envFG_none n).2
    simp [defineState, h]
    rfl

end Txbt

namespace Txbt

/-! ## `Function.export_commands` (datapack.py lines 1922-1953)

NEEDLESS bodies contribute nothing; FLATTEN bodies are spliced inline
(asserting the inherited prefix is empty); SINGLE bodies fold their one
command with the inherited prefix; EXPORT bodies are regenerated into
their own file and replaced by a `function` call line carrying the
inherited prefix.  Every call command — whatever the callee's state —
recurses into the callee.  The fuel bounds the recursion depth;
`.error .fuelOut` at every fuel models the Python infinite recursion. -/

inductive ExpErr where
  | fuelOut
  | assertFail
deriving DecidableEq, Repr

/-- `ICommand.export()`: the prefix segments joined by spaces inside an
`execute ... run` wrapper, or the bare payload when no prefix. -/
def exportLine (pfx : List String) (text : String) : String :=
  if pfx.isEmpty then text
  else "execute " ++ String.intercalate " " pfx ++ " run " ++ text

/-- `Function.expression` of function `f`. -/
def pathOf (env : List FuncData) (f : Nat) : String :=
  ((env[f]?).map (·.pathStr)).getD ""

/-- A pending piece of the export walk: a function with its inherited
prefix, or the remaining commands of a body being emitted. -/
inductive ExpTask where
  | fn (f : Nat) (sub : List String)
  | seq (l : List Cmd)

/-- `export_commands`, returning the files written (`function id`, lines)
and the command lines appended to the caller's list. -/
def expRun (env : List FuncData) (sts : List FuncState) :
    Nat → ExpTask → Except ExpErr (List (Nat × List String) × List String)
  | 0, _ => .error .fuelOut
  | n + 1, .fn f sub =>
    match sts[f]? with
    | none => .error .assertFail
    | some st =>
      match st with
      | .NEEDLESS => .ok ([], [])
      | .FLATTEN =>
        if sub.isEmpty then expRun env sts n (.seq (commandsOf env f))
        else .error .assertFail
      | .SINGLE =>
        match commandsOf env f with
        | [c] =>
          match c with
          | .callF g p => expRun env sts n (.fn g (sub ++ p))
          | .plain p t => .ok ([], [exportLine (sub ++ p) t])
        | _ => .error .assertFail
      | .EXPORT =>
        match expRun env sts n (.seq (commandsOf env f)) with
        | .error e => .error e
        | .ok (files, lines) =>
          .ok (files ++ [(f, lines)], [exportLine sub ("function " ++ pathOf env f)])
  | _ + 1, .seq [] => .ok ([], [])
  | n + 1, .seq (c :: rest) =>
    match c with
    | .plain p t =>
      match expRun env sts n (.seq rest) with
      | .error e => .error e
      | .ok (files, lines) => .ok (files, exportLine p t :: lines)
    | .callF g p =>
      match expRun env sts n (.fn g p) with
      | .error e => .error e
      | .ok (files1, lines1) =>
        match expRun env sts n (.seq rest) with
        | .error e => .error e
        | .ok (files2, lines2) => .ok (files1 ++ files2, lines1 ++ lines2)

/-- Two explicitly named functions, each holding one plain call to the
other: both are classified EXPORT by rule 1 of `define_state`. -/
def envC2 : List FuncData :=
  [⟨true, false, false, "a:f", [Cmd.callF 1 []]⟩,
   ⟨true, false, false, "a:g", [Cmd.callF 0 []]⟩]

def stsC2 : List FuncState := [FuncState.EXPORT, FuncState.EXPORT]

theorem expRun_envC2_fuelOut :
    ∀ n, expRun envC2 stsC2 n (.fn 0 []) = .error .fuelOut
      ∧ expRun envC2 stsC2 n (.fn 1 []) = .error .fuelOut
      ∧ expRun envC2 stsC2 n (.seq [Cmd.callF 0 []]) = .error .fuelOut
      ∧ expRun envC2 stsC2 n (.seq [Cmd.callF 1 []]) = .error .fuelOut := by
  intro n
  induction n with
  | zero => exact ⟨rfl, rfl, rfl, rfl⟩
  | succ n ih =>
    refine ⟨?_, ?_, ?_, ?_⟩
    · show (match expRun envC2 stsC2 n (.seq (commandsOf envC2 0)) with
        | .error e => .error e
        | .ok (files, lines) =>
          .ok (files ++ [(0, lines)], [exportLine [] ("function " ++ pathOf envC2 0)])) =
        (.error .fuelOut : Except ExpErr (List (Nat × List String) × List String))
      have hc : commandsOf envC2 0 = [Cmd.callF 1 []] := rfl
      rw [hc, ih.2.2.2]
    · show (match expRun envC2 stsC2 n (.seq (commandsOf envC2 1)) with
        | .error e => .error e
        | .ok (files, lines) =>
          .ok (files ++ [(1, lines)], [exportLine [] ("function " ++ pathOf envC2 1)])) =
        (.error .fuelOut : Except ExpErr (List (Nat × List String) × List String))
      have hc : commandsOf envC2 1 = [Cmd.callF 0 []] := rfl
      rw [hc, ih.2.2.1]
    · show (match expRun envC2 stsC2 n (.fn 0 []) with
        | .error e => .error e
        | .ok (files1, lines1) =>
          match expRun envC2 stsC2 n (.seq []) with
          | .error e => .error e
          | .ok (files2, lines2) => .ok (files1 ++ files2, lines1 ++ lines2)) =
        (.error .fuelOut : Except ExpErr (List (Nat × List String) × List String))
      rw [ih.1]
    · show (match expRun envC2 stsC2 n (.fn 1 []) with
        | .error e => .error e
        | .ok (files1, lines1) =>
          match expRun envC2 stsC2 n (.seq []) with
          | .error e => .error e
          | .ok (files2, lines2) => .ok (files1 ++ files2, lines1 ++ lines2)) =
        (.error .fuelOut : Except ExpErr (List (Nat × List String) × List String))
      rw [ih.2.1]

/-- C2: the failing input evaluated.  Both functions of `envC2` are
classified EXPORT by `define_state` (explicit path), `recursivecheck`
leaves them EXPORT, yet `export_commands` run on either EXPORT root fails
to terminate at every recursion depth: the EXPORT branch re-enters the
body of every EXPORT callee, so the two-function call cycle recurses for
ever.  This contradicts the claimed termination of the inlining
recursion. -/
theorem claim_C2_code_bug :
    defineState envC2 0 0 = some FuncState.EXPORT
    ∧ defineState envC2 0 1 = some FuncState.EXPORT
    ∧ rcAll envC2 9 stsC2 = some (stsC2, [true, true])
    ∧ (∀ n, expRun envC2 stsC2 n (.fn 0 []) = .error .fuelOut)
    ∧ (∀ n, expRun envC2 stsC2 n (.fn 1 []) = .error .fuelOut) := by
  refine ⟨by decide, by decide, by decide, ?_, ?_⟩
  · intro n; exact (expRun_envC2_fuelOut n).1
  · intro n; exact (expRun_envC2_fuelOut n).2.1

end Txbt

namespace Txbt

/-! ## `SubCommand.__add__` (datapack.py lines 499-528)

The dispatch order is: `ConditionSubCommand`, then `SubCommand`, then
`Command.Function.Function`, then any other `ICommand`.  The first three
branches build a fresh object whose segment list is the left operand's
segments followed by the right operand's.  The final branch starts from
`copy(other)` — a shallow copy, so the copy's `subcommands` is the *same
list object* as `other.subcommands` — and then extends that shared list
first with `self.subcommands` and then with `other.subcommands` (which is
the list itself, already extended).  `pyAdd` returns the result together
with the right operand's state after the call, so the aliasing mutation is
visible. -/

/-- The right operand of `SubCommand.__add__`: a condition chain, a plain
chain, a registered-function call command, or any other command (payload
abstracted to a number, execute-prefix segments abstracted to numbers). -/
inductive AddTarget where
  | condT (segs : List Nat)
  | chainT (segs : List Nat)
  | fnCallT (holder : Nat) (segs : List Nat)
  | genericT (payload : Nat) (segs : List Nat)
deriving DecidableEq, Repr

/-- `SubCommand.__add__`: returns (result, right operand after the call). -/
def pyAdd (s : List Nat) : AddTarget → AddTarget × AddTarget
  | .condT o => (.condT (s ++ o), .condT o)
  | .chainT o => (.chainT (s ++ o), .chainT o)
  | .fnCallT h o => (.fnCallT h (s ++ o), .fnCallT h o)
  | .genericT p o =>
    let shared := o ++ s ++ (o ++ s)
    (.genericT p shared, .genericT p shared)

/-- C4 counterexample: attaching the one-segment chain `[7]` to a generic
command with no segments yields segments `[7, 7]` — not `[7]` — and
mutates the operand to the same doubled list; composition through a
generic target is also not associative. -/
theorem claim_C4_cex :
    pyAdd [7] (AddTarget.genericT 0 []) = (.genericT 0 [7, 7], .genericT 0 [7, 7])
    ∧ pyAdd [7] (AddTarget.genericT 0 []) ≠ (.genericT 0 [7], .genericT 0 [])
    ∧ (pyAdd ([1] ++ [2]) (AddTarget.genericT 0 [])).1
        ≠ (pyAdd [1] ((pyAdd [2] (AddTarget.genericT 0 [])).1)).1 := by
  exact ⟨by decide, by decide, by decide⟩

/-- C4 amended: attaching a chain to a condition chain, a plain chain, or
a function call yields the same family with the chain's segments
prepended, leaves the right operand unchanged, and is associative; for
any other command the shallow copy shares the operand's segment list, so
the result (and the mutated operand) carry `o ++ P ++ o ++ P` instead of
`P ++ o`. -/
theorem claim_C4_amended (p q o : List Nat) (h pay : Nat) :
    pyAdd p (.condT o) = (.condT (p ++ o), .condT o)
    ∧ pyAdd p (.chainT o) = (.chainT (p ++ o), .chainT o)
    ∧ pyAdd p (.fnCallT h o) = (.fnCallT h (p ++ o), .fnCallT h o)
    ∧ (pyAdd (p ++ q) (.condT o)).1 = (pyAdd p ((pyAdd q (.condT o)).1)).1
    ∧ (pyAdd (p ++ q) (.chainT o)).1 = (pyAdd p ((pyAdd q (.chainT o)).1)).1
    ∧ (pyAdd (p ++ q) (.fnCallT h o)).1 = (pyAdd p ((pyAdd q (.fnCallT h o)).1)).1
    ∧ pyAdd p (.genericT pay o)
        = (.genericT pay (o ++ p ++ (o ++ p)), .genericT pay (o ++ p ++ (o ++ p))) := by
  refine ⟨rfl, rfl, rfl, ?_, ?_, ?_, rfl⟩ <;> simp [pyAdd, List.append_assoc]

/-! ## Condition segment constructors (datapack.py lines 272-361)

Each condition segment carries a polarity bit; `prefix` renders `"if "`
when the bit is true and `"unless "` when it is false.  For the five
families below the source's `Unless` classmethod passes `True` — the same
polarity as `If`. -/

/-- Rendering of `IConditionSubCommandSegment.prefix`. -/
def condPfx (b : Bool) : String := if b then "if " else "unless "

/-- `SubCommandSegment.Condition.Entity` (selector text abstracted). -/
structure CondEntity where
  entity : String
  cond : Bool
deriving DecidableEq, Repr

def CondEntity.If (e : String) : CondEntity := ⟨e, true⟩

def CondEntity.Unless (e : String) : CondEntity := ⟨e, true⟩

def CondEntity.exportSub (c : CondEntity) : String :=
  condPfx c.cond ++ "entity " ++ c.entity

/-- `SubCommandSegment.Condition.Block`. -/
structure CondBlock where
  pos : String
  block : String
  cond : Bool
deriving DecidableEq, Repr

def CondBlock.If (p b : String) : CondBlock := ⟨p, b, true⟩

def CondBlock.Unless (p b : String) : CondBlock := ⟨p, b, true⟩

def CondBlock.exportSub (c : CondBlock) : String :=
  condPfx c.cond ++ "block " ++ c.pos ++ " " ++ c.block

/-- `SubCommandSegment.Condition.Blocks`. -/
structure CondBlocks where
  bpos : String
  epos : String
  dest : String
  method : String
  cond : Bool
deriving DecidableEq, Repr

def CondBlocks.If (b e d m : String) : CondBlocks := ⟨b, e, d, m, true⟩

def CondBlocks.Unless (b e d m : String) : CondBlocks := ⟨b, e, d, m, true⟩

def CondBlocks.exportSub (c : CondBlocks) : String :=
  condPfx c.cond ++ "blocks " ++ c.bpos ++ " " ++ c.epos ++ " " ++ c.dest ++ " " ++ c.method

/-- `SubCommandSegment.Condition.Score`. -/
structure CondScore where
  target : String
  source : String
  op : String
  cond : Bool
deriving DecidableEq, Repr

def CondScore.If (t s o : String) : CondScore := ⟨t, s, o, true⟩

def CondScore.Unless (t s o : String) : CondScore := ⟨t, s, o, true⟩

def CondScore.exportSub (c : CondScore) : String :=
  condPfx c.cond ++ "score " ++ c.target ++ " " ++ c.op ++ " " ++ c.source

/-- `SubCommandSegment.Condition.Score.Matches`. -/
structure CondScoreMatches where
  target : String
  start : Int
  stop : Option Int
  cond : Bool
deriving DecidableEq, Repr

def CondScoreMatches.If (t : String) (a : Int) (b : Option Int) : CondScoreMatches :=
  ⟨t, a, b, true⟩

def CondScoreMatches.Unless (t : String) (a : Int) (b : Option Int) : CondScoreMatches :=
  ⟨t, a, b, true⟩

def CondScoreMatches.exportSub (c : CondScoreMatches) : String :=
  match c.stop with
  | none => condPfx c.cond ++ "score " ++ c.target ++ " matches " ++ toString c.start
  | some s =>
    condPfx c.cond ++ "score " ++ c.target ++ " matches " ++ toString c.start
      ++ ".." ++ toString s

/-- C6: for every input, the `Unless` constructors of the Entity, Block,
Blocks, Score and Score.Matches condition families return exactly the
segment their `If` counterparts return, the polarity bit is `true`, and
the exported text therefore carries the `"if "` prefix — the condition is
never actually inverted. -/
theorem claim_C6 (e p bl b2 e2 d m t s o : String) (a : Int) (sp : Option Int) :
    CondEntity.Unless e = CondEntity.If e
    ∧ (CondEntity.Unless e).cond = true
    ∧ (CondEntity.Unless e).exportSub = condPfx true ++ ("entity " ++ e)
    ∧ CondBlock.Unless p bl = CondBlock.If p bl
    ∧ (CondBlock.Unless p bl).cond = true
    ∧ CondBlocks.Unless b2 e2 d m = CondBlocks.If b2 e2 d m
    ∧ (CondBlocks.Unless b2 e2 d m).cond = true
    ∧ CondScore.Unless t s o = CondScore.If t s o
    ∧ (CondScore.Unless t s o).cond = true
    ∧ CondScoreMatches.Unless t a sp = CondScoreMatches.If t a sp
    ∧ (CondScoreMatches.Unless t a sp).cond = true
    ∧ condPfx (CondScoreMatches.Unless t a sp).cond = "if " := by
  refine ⟨rfl, rfl, ?_, rfl, rfl, rfl, rfl, rfl, rfl, rfl, rfl, rfl⟩
  simp [CondEntity.exportSub, CondEntity.Unless, String.append_assoc]

end Txbt

namespace Txbt

/-! ## `FunctionTag.export` (datapack.py lines 1459-1476)

The tag's referent list mixes registered `Function` objects and raw path
strings.  The export loop appends `f.expression` for referents that are
`Function` objects with `callstate == EXPORT` and silently skips
everything else — including every raw-path referent. -/

/-- A referent held by a `FunctionTag`. -/
inductive TagRef where
  | fnRef (i : Nat)
  | rawRef (p : String)
deriving DecidableEq, Repr

/-- The `values` list built by `FunctionTag.export`. -/
def tagValues (env : List FuncData) (sts : List FuncState) : List TagRef → List String
  | [] => []
  | .fnRef i :: rest =>
    if sts[i]? = some .EXPORT then pathOf env i :: tagValues env sts rest
    else tagValues env sts rest
  | .rawRef _ :: rest => tagValues env sts rest

/-- Keep predicate matching the export loop: only `Function` referents
whose callstate is EXPORT survive. -/
def keepRef (sts : List FuncState) : TagRef → Bool
  | .fnRef i => decide (sts[i]? = some .EXPORT)
  | .rawRef _ => false

/-- The path expression contributed by a surviving referent. -/
def refVal (env : List FuncData) : TagRef → String
  | .fnRef i => pathOf env i
  | .rawRef p => p

def envT : List FuncData := [⟨true, false, false, "a:f", []⟩]

/-- C8 counterexample: a tag referencing the EXPORT function `a:f` and the
raw path `lib:boot` exports only `["a:f"]` — the raw-path referent does
not appear in the written list, contradicting the claim that raw-path
referents survive the filter. -/
theorem claim_C8_cex :
    tagValues envT [FuncState.EXPORT] [TagRef.fnRef 0, TagRef.rawRef "lib:boot"] = ["a:f"]
    ∧ "lib:boot" ∉ tagValues envT [FuncState.EXPORT] [TagRef.fnRef 0, TagRef.rawRef "lib:boot"] := by
  exact ⟨by decide, by decide⟩

/-- C8 amended: the written list contains, in order, exactly the
referenced `Function`s whose callstate is EXPORT (their path
expressions); every raw-path referent is dropped, as is every referenced
`Function` whose callstate is not EXPORT. -/
theorem claim_C8_amended (env : List FuncData) (sts : List FuncState) :
    ∀ refs : List TagRef,
      tagValues env sts refs = (refs.filter (keepRef sts)).map (refVal env)
      ∧ (∀ p, tagValues env sts (TagRef.rawRef p :: refs) = tagValues env sts refs)
      ∧ (∀ s, s ∈ tagValues env sts refs ↔
          ∃ i, TagRef.fnRef i ∈ refs ∧ sts[i]? = some .EXPORT ∧ s = pathOf env i) := by
  intro refs
  induction refs with
  | nil =>
    refine ⟨rfl, fun p => rfl, ?_⟩
    intro s
    constructor
    · intro h; exact absurd h (List.not_mem_nil s)
    · rintro ⟨i, hi, _, _⟩; exact absurd hi (List.not_mem_nil _)
  | cons r rest ih =>
    refine ⟨?_, fun p => rfl, ?_⟩
    · cases r with
      | fnRef i =>
        by_cases hst : sts[i]? = some FuncState.EXPORT
        · simp [tagValues, hst, keepRef, List.filter_cons, refVal, ih.1]
        · simp [tagValues, hst, keepRef, List.filter_cons, ih.1]
      | rawRef p =>
        simp [tagValues, keepRef, List.filter_cons, ih.1]
    · intro s
      cases r with
      | fnRef i =>
        by_cases hst : sts[i]? = some FuncState.EXPORT
        · simp only [tagValues, hst, if_pos rfl]
          constructor
          · intro h
            rcases List.mem_cons.mp h with h1 | h2
            · exact ⟨i, List.mem_cons_self _ _, hst, h1⟩
            · rcases (ih.2.2 s).mp h2 with ⟨j, hj, hstj, hs⟩
              exact ⟨j, List.mem_cons_of_mem _ hj, hstj, hs⟩
          · rintro ⟨j, hj, hstj, hs⟩
            rcases List.mem_cons.mp hj with h1 | h2
            · have : j = i := by injection h1
              subst this
              exact List.mem_cons.mpr (Or.inl hs)
            · exact List.mem_cons.mpr (Or.inr ((ih.2.2 s).mpr ⟨j, h2, hstj, hs⟩))
        · simp only [tagValues, hst, if_neg (by exact hst)]
          constructor
          · intro h
            rcases (ih.2.2 s).mp h with ⟨j, hj, hstj, hs⟩
            exact ⟨j, List.mem_cons_of_mem _ hj, hstj, hs⟩
          · rintro ⟨j, hj, hstj, hs⟩
            rcases List.mem_cons.mp hj with h1 | h2
            · have : j = i := by injection h1
              subst this
              exact absurd hstj hst
            · exact (ih.2.2 s).mpr ⟨j, h2, hstj, hs⟩
      | rawRef p =>
        simp only [tagValues]
        constructor
        · intro h
          rcases (ih.2.2 s).mp h with ⟨j, hj, hstj, hs⟩
          exact ⟨j, List.mem_cons_of_mem _ hj, hstj, hs⟩
        · rintro ⟨j, hj, hstj, hs⟩
          rcases List.mem_cons.mp hj with h1 | h2
          · exact absurd h1 (by simp)
          · exact (ih.2.2 s).mpr ⟨j, h2, hstj, hs⟩

end Txbt

namespace Txbt

/-! ## `ConditionSubCommand.invert` (datapack.py lines 657-664) and
`IConditionSubCommandSegment.invert` (lines 134-137)

A condition chain is a list of segments; a condition segment carries a
polarity bit, any other segment does not.  `invert` *returns* a
`ValueError` object (it does not raise it) when the chain does not hold
exactly one segment; with exactly one segment it copies the chain,
asserts the segment is a condition segment, and replaces the segment list
by a fresh one holding the polarity-negated copy — the original chain and
segment are left untouched (`copy` plus rebinding, never in-place
mutation, which the pure embedding reflects). -/

/-- A chain segment: a condition segment with payload and polarity, or
any other subcommand segment. -/
inductive CSeg where
  | condS (pay : Nat) (pol : Bool)
  | plainS (pay : Nat)
deriving DecidableEq, Repr

/-- `IConditionSubCommandSegment.invert`: copy with negated polarity. -/
def csegInvert : CSeg → CSeg
  | .condS p b => .condS p (!b)
  | .plainS p => .plainS p

/-- What `ConditionSubCommand.invert` returns: either a new chain or a
`ValueError` object used as an ordinary value. -/
inductive InvertOut where
  | chainOut (c : List CSeg)
  | valueErr (msg : String)
deriving DecidableEq, Repr

/-- `ConditionSubCommand.invert`; `.error` models a raised exception (the
`assert isinstance(head, IConditionSubCommandSegment)`). -/
def csInvert (c : List CSeg) : Except String InvertOut :=
  if c.length ≠ 1 then .ok (.valueErr "cannot invert multiple subcommands")
  else
    match c.getLast? with
    | some (.condS p b) => .ok (.chainOut [.condS p (!b)])
    | _ => .error "AssertionError"

/-- C9: on condition chains (whose final segment is a condition segment,
the class invariant), `invert` never raises: with exactly one segment it
returns a new chain holding the polarity-negated condition segment, and
with more than one segment it returns a `ValueError` object as its result
value instead of raising it. -/
theorem claim_C9 (c : List CSeg)
    (hinv : ∃ p b, c.getLast? = some (CSeg.condS p b)) :
    (∃ out, csInvert c = .ok out)
    ∧ (∀ p b, c = [CSeg.condS p b] → csInvert c = .ok (.chainOut [CSeg.condS p (!b)]))
    ∧ (c.length ≠ 1 → csInvert c = .ok (.valueErr "cannot invert multiple subcommands")) := by
  rcases hinv with ⟨p, b, hlast⟩
  by_cases hlen : c.length = 1
  · have hc : c = [CSeg.condS p b] := by
      cases c with
      | nil => simp at hlen
      | cons x rest =>
        cases rest with
        | nil =>
          simp only [List.getLast?_singleton, Option.some.injEq] at hlast
          rw [hlast]
        | cons y t => simp at hlen
    subst hc
    refine ⟨⟨.chainOut [CSeg.condS p (!b)], ?_⟩, ?_, ?_⟩
    · simp [csInvert]
    · intro p' b' he
      have hh : CSeg.condS p b = CSeg.condS p' b' := List.head_eq_of_cons_eq he
      injection hh with hp1 hp2
      subst hp1; subst hp2
      simp [csInvert]
    · intro h; exact absurd rfl h
  · refine ⟨⟨.valueErr "cannot invert multiple subcommands", ?_⟩, ?_, ?_⟩
    · simp [csInvert, hlen]
    · intro p' b' he
      rw [he] at hlen
      simp at hlen
    · intro _; simp [csInvert, hlen]

theorem claim_C9_witness :
    (∃ p b, ([CSeg.condS 5 true] : List CSeg).getLast? = some (CSeg.condS p b))
    ∧ csInvert [CSeg.condS 5 true] = .ok (.chainOut [CSeg.condS 5 false]) := by
  refine ⟨⟨5, true, rfl⟩, ?_⟩
  have h := (claim_C9 [CSeg.condS 5 true] ⟨5, true, rfl⟩).2.1 5 true rfl
  simpa using h

/-! ## `Wait.__init__` (txbt.py lines 249-254)

The constructor asserts `0 < tick`; a failing assertion raises, modeled
as `none`. -/

structure WaitNode where
  tick : Int
deriving DecidableEq, Repr

/-- `Wait(tick)`: `none` models the `assert 0 < tick` failing. -/
def waitInit (tick : Int) : Option WaitNode :=
  if 0 < tick then some ⟨tick⟩ else none

/-- C10: constructing `Wait` succeeds exactly for strictly positive tick
counts, and every constructed `Wait` node carries a tick count of at
least 1 — so every `Wait` that reaches compilation satisfies `n ≥ 1`. -/
theorem claim_C10 (t : Int) :
    ((waitInit t).isSome ↔ 1 ≤ t)
    ∧ (∀ w, waitInit t = some w → 1 ≤ w.tick) := by
  constructor
  · constructor
    · intro hs
      by_cases h : 0 < t
      · omega
      · simp [waitInit, h] at hs
    · intro h1
      simp [waitInit, show 0 < t by omega]
  · intro w hw
    unfold waitInit at hw
    by_cases h : 0 < t
    · rw [if_pos h] at hw
      injection hw with hw'
      rw [← hw']
      show (1 : Int) ≤ t
      omega
    · rw [if_neg h] at hw
      exact absurd hw (by simp)

theorem claim_C10_witness :
    ((waitInit 3).isSome ↔ 1 ≤ (3 : Int))
    ∧ waitInit 3 = some ⟨3⟩
    ∧ 1 ≤ (⟨3⟩ : WaitNode).tick
    ∧ waitInit 0 = none := by
  refine ⟨(claim_C10 3).1, rfl, (claim_C10 3).2 ⟨3⟩ rfl, rfl⟩

/-! ## `IComposit` (txbt.py lines 670-683)

`IComposit.__init__` just stores the children; the emptiness check sits
at the top of `_export_server` / `_export_entity`, which raise
`IndexError("cannot export empty composit")` before any code generation
for the node. -/

/-- A minimal combinator-tree node (children content is irrelevant to the
emptiness check). -/
inductive EvNode where
  | leaf
  | comp (subs : List EvNode)

/-- `IComposit.__init__(*subs)`: stores `[*subs]`; its body cannot raise,
so construction always succeeds. -/
def compositInit (subs : List EvNode) : Except String (List EvNode) :=
  .ok subs

/-- The guard at the top of `IComposit._export_server` and
`IComposit._export_entity`. -/
def compositExportGuard (subs : List EvNode) : Except String Unit :=
  if subs.isEmpty then .error "cannot export empty composit" else .ok ()

/-- C7 counterexample: constructing a composite with zero children does
not raise — `compositInit []` succeeds — so the error is not raised at
tree-construction time. -/
theorem claim_C7_cex : compositInit [] = .ok [] := rfl

/-- C7 amended: a composite with zero children is constructed without
error; the `IndexError("cannot export empty composit")` is raised when
the composite is exported (`_export_server` / `_export_entity`), as the
first step, before any compilation of the node — and never for a
non-empty composite. -/
theorem claim_C7_amended :
    compositInit ([] : List EvNode) = .ok []
    ∧ compositExportGuard [] = .error "cannot export empty composit"
    ∧ (∀ x xs, compositExportGuard (x :: xs) = .ok ()) := by
  exact ⟨rfl, rfl, fun x xs => rfl⟩

end Txbt

namespace Txbt

/-! ## `ParallelTraverse.main_server_with_state` (txbt.py lines 898-920)
and `ParallelTraverse.main_entity_with_state` (txbt.py lines 925-943)

With all children non-infinite the compiled shape is, in both backends:
the entry function first sets the shared counter to the child count, then
launches every child; each child's exit continuation gets, appended after
its own commands, a decrement of the counter followed by a call of the
composite's exit guarded by `counter == 0`; the exit function writes
success (1) to the result cell when the node is not resultless (the
server backend then also removes the node's data).  The backends differ
in the decrement: the entity backend uses `score.Remove(1)`, an exact
decrement, while the server backend uses
`execute store result count 0.99999 run data get count`, i.e.
`c ↦ ⌊c * 0.99999⌋` — an exact decrement only for `1 ≤ c ≤ 99999`
(`⌊100001 * 0.99999⌋ = 99999` subtracts 2).  Child-specific command
content is abstracted as `childEntry`/`childAbort` markers. -/

/-- Generated commands relevant to the ParallelTraverse shape. -/
inductive GCmd where
  | setCount (n : Nat)
  | decCount
  | decOne
  | ifZeroExit
  | childEntry (i : Nat)
  | childAbort (i : Nat)
  | setResultB (v : Nat)
  | removeData
deriving DecidableEq, Repr

/-- The functions assembled by `main_server_with_state` /
`main_entity_with_state` in the non-infinite case. -/
structure PTOut where
  entry : List GCmd
  childEnds : List (List GCmd)
  exitCmds : List GCmd
  abortCmds : List GCmd
deriving DecidableEq, Repr

/-- `ParallelTraverse.main_server_with_state` for `N` non-infinite
children. -/
def compilePTServer (N : Nat) (resultless : Bool) : PTOut :=
  { entry := GCmd.setCount N :: (List.range N).map GCmd.childEntry
  , childEnds := (List.range N).map (fun _ => [GCmd.decCount, GCmd.ifZeroExit])
  , exitCmds := (if resultless then [] else [GCmd.setResultB 1]) ++ [GCmd.removeData]
  , abortCmds := GCmd.removeData :: (List.range N).map GCmd.childAbort }

/-- `ParallelTraverse.main_entity_with_state` for `N` non-infinite
children: the counter is a scoreboard value, decremented by
`score.Remove(1)` and tested with `score.IfMatch(0)`; the exit does not
remove storage data. -/
def compilePTEntity (N : Nat) (resultless : Bool) : PTOut :=
  { entry := GCmd.setCount N :: (List.range N).map GCmd.childEntry
  , childEnds := (List.range N).map (fun _ => [GCmd.decOne, GCmd.ifZeroExit])
  , exitCmds := if resultless then [] else [GCmd.setResultB 1]
  , abortCmds := (List.range N).map GCmd.childAbort }

/-- The `store result ... 0.99999` decrement applied to the (non-negative)
counter. -/
def decStore (c : Nat) : Nat := c * 99999 / 100000

/-- Runtime of the generated fragment: starting from counter value `c`,
process `k` child exits; each exit runs its appended suffix — decrement,
then call the composite exit if the counter is now zero.  Returns the
final counter and the number of times the composite exit was invoked. -/
def runPT : Nat → Nat → Nat × Nat
  | c, 0 => (c, 0)
  | c, k + 1 =>
    let c' := decStore c
    let e := if c' = 0 then 1 else 0
    let r := runPT c' k
    (r.1, e + r.2)

theorem decStore_eq (c : Nat) (h1 : 1 ≤ c) (h2 : c ≤ 99999) : decStore c = c - 1 := by
  unfold decStore
  omega

theorem runPT_spec : ∀ k c, k ≤ c → 1 ≤ c → c ≤ 99999 →
    runPT c k = (c - k, if c = k then 1 else 0) := by
  intro k
  induction k with
  | zero =>
    intro c _ h1 _
    have : ¬ c = 0 := by omega
    simp [runPT, this]
  | succ k ih =>
    intro c hk h1 h2
    have hdec : decStore c = c - 1 := decStore_eq c h1 h2
    by_cases hc1 : c = 1
    · subst hc1
      have hk0 : k = 0 := by omega
      subst hk0
      simp [runPT, hdec]
    · have hc2 : 2 ≤ c := by omega
      have hrec := ih (c - 1) (by omega) (by omega) (by omega)
      simp only [runPT, hdec, hrec]
      have hne : ¬ (c - 1 = 0) := by omega
      simp only [hne, if_false]
      have h3 : c - (k + 1) = c - 1 - k := by omega
      have h4 : (c - 1 = k) ↔ (c = k + 1) := by omega
      rw [h3]
      simp [h4]

/-- Once the server counter has reached zero, every further child exit
leaves it at zero and fires the guarded exit call again. -/
theorem runPT_zero : ∀ k, runPT 0 k = (0, k) := by
  intro k
  induction k with
  | zero => rfl
  | succ k ih =>
    have hd : decStore 0 = 0 := rfl
    simp only [runPT, hd, ih]
    simp [Nat.add_comm]

/-- Server counter within the exact-decrement range but with more exits
than its value: the guarded exit fires at the `c`-th exit and at every
exit after it. -/
theorem runPT_over : ∀ k c, 1 ≤ c → c ≤ 99999 → c ≤ k →
    runPT c k = (0, k - c + 1) := by
  intro k
  induction k with
  | zero => intro c h1 _ hk; omega
  | succ k ih =>
    intro c h1 h2 hk
    have hdec : decStore c = c - 1 := decStore_eq c h1 h2
    by_cases hc1 : c = 1
    · subst hc1
      have hz := runPT_zero k
      have hd0 : decStore 1 = 0 := rfl
      have hstep : runPT 1 (k + 1) = (0, 1 + k) := by
        simp [runPT, hd0, hz]
      have h2 : k + 1 - 1 + 1 = 1 + k := by omega
      rw [hstep, h2]
    · have hc2 : 2 ≤ c := by omega
      have hrec := ih (c - 1) (by omega) (by omega) (by omega)
      simp only [runPT, hdec, hrec]
      have hne : ¬ (c - 1 = 0) := by omega
      simp only [hne, if_false]
      have : k - (c - 1) + 1 = k + 1 - c + 1 := by omega
      simp [this]

/-- Entity-backend runtime: same event processing with the exact
`score.Remove(1)` decrement. -/
def runPTE : Nat → Nat → Nat × Nat
  | c, 0 => (c, 0)
  | c, k + 1 =>
    let c' := c - 1
    let e := if c' = 0 then 1 else 0
    let r := runPTE c' k
    (r.1, e + r.2)

theorem runPTE_spec : ∀ k c, k ≤ c → 1 ≤ c →
    runPTE c k = (c - k, if c = k then 1 else 0) := by
  intro k
  induction k with
  | zero =>
    intro c _ h1
    have : ¬ c = 0 := by omega
    simp [runPTE, this]
  | succ k ih =>
    intro c hk h1
    by_cases hc1 : c = 1
    · subst hc1
      have hk0 : k = 0 := by omega
      subst hk0
      simp [runPTE]
    · have hc2 : 2 ≤ c := by omega
      have hrec := ih (c - 1) (by omega) (by omega)
      simp only [runPTE, hrec]
      have hne : ¬ (c - 1 = 0) := by omega
      simp only [hne, if_false]
      have h3 : c - (k + 1) = c - 1 - k := by omega
      have h4 : (c - 1 = k) ↔ (c = k + 1) := by omega
      rw [h3]
      simp [h4]

/-- One-step unfolding of `runPT`. -/
theorem runPT_succ (c k : Nat) : runPT c (k + 1) =
    ((runPT (decStore c) k).1,
      (if decStore c = 0 then 1 else 0) + (runPT (decStore c) k).2) := rfl

/-- C5 counterexample: for `N = 100001` children the server backend's
scaled decrement subtracts 2 on the first child exit
(`decStore 100001 = 99999`), so the counter reaches zero at the
100000-th child exit — the composite exit has already fired once while a
child is still running — and fires again at the last child exit: two
invocations in total, refuting "invoked exactly once — after every child
has exited" for arbitrary `N ≥ 1`. -/
theorem claim_C5_cex :
    decStore 100001 = 99999
    ∧ runPT 100001 100001 = (0, 2)
    ∧ (runPT 100001 100000).2 = 1
    ∧ (2 : Nat) ≠ 1 := by
  have h1 : decStore 100001 = 99999 := by decide
  have hover : runPT 99999 100000 = (0, 2) := by
    have h := runPT_over 100000 99999 (by omega) (by omega) (by omega)
    simpa using h
  have hspec : runPT 99999 99999 = (0, 1) := by
    have h := runPT_spec 99999 99999 le_rfl (by omega) (by omega)
    simpa using h
  refine ⟨h1, ?_, ?_, by omega⟩
  · show runPT 100001 (100000 + 1) = (0, 2)
    rw [runPT_succ, h1, hover]
    norm_num
  · show (runPT 100001 (99999 + 1)).2 = 1
    rw [runPT_succ, h1, hspec]
    norm_num

/-- C5 amended: for `N ≥ 1` non-infinite children, both backends set the
shared counter to `N` as the first entry command, append to each child's
exit continuation a decrement of the counter followed by the zero-guarded
call of the composite exit, and write success (1) to the result cell from
the exit when not resultless.  The entity backend's decrement is exact,
so its composite exit is invoked exactly once — at the `N`-th child exit,
never earlier — for every `N ≥ 1`; the server backend's `0.99999`-scaled
decrement is exact only up to counter 99999, so its exactly-once
behaviour holds for `N ≤ 99999` (and fails beyond, see the
counterexample). -/
theorem claim_C5_amended (N : Nat) (r : Bool) (h1 : 1 ≤ N) :
    (compilePTServer N r).entry.head? = some (GCmd.setCount N)
    ∧ (compilePTServer N r).childEnds.length = N
    ∧ (∀ e ∈ (compilePTServer N r).childEnds, e = [GCmd.decCount, GCmd.ifZeroExit])
    ∧ (N ≤ 99999 → runPT N N = (0, 1) ∧ ∀ k, k < N → (runPT N k).2 = 0)
    ∧ (r = false → GCmd.setResultB 1 ∈ (compilePTServer N r).exitCmds)
    ∧ (compilePTEntity N r).entry.head? = some (GCmd.setCount N)
    ∧ (compilePTEntity N r).childEnds.length = N
    ∧ (∀ e ∈ (compilePTEntity N r).childEnds, e = [GCmd.decOne, GCmd.ifZeroExit])
    ∧ runPTE N N = (0, 1)
    ∧ (∀ k, k < N → (runPTE N k).2 = 0)
    ∧ (r = false → GCmd.setResultB 1 ∈ (compilePTEntity N r).exitCmds) := by
  refine ⟨rfl, by simp [compilePTServer], ?_, ?_, ?_, rfl,
    by simp [compilePTEntity], ?_, ?_, ?_, ?_⟩
  · intro e he
    simp only [compilePTServer, List.mem_map] at he
    rcases he with ⟨i, _, he⟩
    exact he.symm
  · intro h2
    constructor
    · have h := runPT_spec N N le_rfl h1 h2
      simpa using h
    · intro k hk
      have h := runPT_spec k N (by omega) h1 h2
      rw [h]
      have : ¬ (N = k) := by omega
      simp [this]
  · intro hr
    subst hr
    simp [compilePTServer]
  · intro e he
    simp only [compilePTEntity, List.mem_map] at he
    rcases he with ⟨i, _, he⟩
    exact he.symm
  · have h := runPTE_spec N N le_rfl h1
    simpa using h
  · intro k hk
    have h := runPTE_spec k N (by omega) h1
    rw [h]
    have : ¬ (N = k) := by omega
    simp [this]
  · intro hr
    subst hr
    simp [compilePTEntity]

theorem claim_C5_witness :
    1 ≤ 3
    ∧ (compilePTServer 3 false).entry.head? = some (GCmd.setCount 3)
    ∧ runPT 3 3 = (0, 1)
    ∧ (runPT 3 2).2 = 0
    ∧ GCmd.setResultB 1 ∈ (compilePTServer 3 false).exitCmds
    ∧ runPTE 3 3 = (0, 1)
    ∧ (runPTE 3 2).2 = 0
    ∧ GCmd.setResultB 1 ∈ (compilePTEntity 3 false).exitCmds := by
  have h := claim_C5_amended 3 false (by omega)
  refine ⟨by omega, h.1, (h.2.2.2.1 (by omega)).1, (h.2.2.2.1 (by omega)).2 2 (by omega),
    h.2.2.2.2.1 rfl, h.2.2.2.2.2.2.2.2.1, h.2.2.2.2.2.2.2.2.2.1 2 (by omega),
    h.2.2.2.2.2.2.2.2.2.2 rfl⟩

end Txbt
